import Mathlib

/-!
Verification of the term-chess legality core.

Shallow embedding of `chess_api`:
- `Square`, `Move` (with `to_uci`) embed `src/lib.rs`;
- `PieceColor`, `PieceType`, `Piece` and `Piece.can_move_to` embed
  `src/piece.rs`;
- `Rook` (the polymorphic piece object) embeds `src/pieces/rook.rs`;
- the repository's `board.rs` and `movement.rs` modules are not present in
  the source tree (only their callers and tests are), so `Board`,
  `Board.is_move_possible`, `Board.pathClear`, `Move.to_deltas` and
  `Move.to_coords` are modelled from the specification (spec.md sections
  4.2 and 4.4).

Machine integers (`u8`, `usize`) are embedded as `Nat`; no operation in the
embedded fragment can overflow on the inputs the theorems quantify over.
The `assert!` calls in `Square::new` are embedded by making construction
return `Option Square`.
-/

/-- Embeds `Square` from `src/lib.rs` (structurally identical to the
`movement::Square` coordinate used by `piece.rs`): a zero-based
(file, rank) pair. The `u8` fields become `Nat`. -/
structure Square where
  x : Nat
  y : Nat
deriving DecidableEq, Repr

namespace Square

/-- Embeds `Square::new` from `src/lib.rs`: `assert!(x < 8); assert!(y < 8)`.
The panicking construction is embedded as an `Option`: `none` models the
assertion failure (range violation). -/
def new (x y : Nat) : Option Square :=
  if x < 8 then
    if y < 8 then some ⟨x, y⟩ else none
  else none

/-- Embeds `Square::to_uci` from `src/lib.rs`: file 0..7 maps to a letter
`'a'..'h'` (via `"abcdefgh".chars().nth(x).unwrap()`, total on the
asserted range) and the rank is printed 1-based. -/
def to_uci (s : Square) : String :=
  String.mk ["abcdefgh".toList.getD s.x 'a'] ++ toString (s.y + 1)

/-- Embeds `Square::to_index` from `src/lib.rs`: `x + 8 * y`. -/
def to_index (s : Square) : Nat :=
  s.x + 8 * s.y

end Square

/-- Embeds `Move` from `src/lib.rs` / `movement.rs`: an ordered pair of
squares. The source field `end` is a Lean keyword, so it is named `stop`. -/
structure Move where
  start : Square
  stop : Square
deriving DecidableEq, Repr

namespace Move

/-- Embeds `Move::new`: stores both endpoints verbatim. -/
def new (start stop : Square) : Move :=
  ⟨start, stop⟩

/-- Embeds `Move::to_uci` from `src/lib.rs`: the start square's notation
followed by the end square's (`push_str`). -/
def to_uci (m : Move) : String :=
  m.start.to_uci ++ m.stop.to_uci

/-- Modelled from the spec: `movement.rs` (Move::to_deltas) is not in the
source tree.  Spec 4.2: `deltas()` returns
`(|file2-file1|, |rank2-rank1|)` as unsigned magnitudes. -/
def to_deltas (m : Move) : Nat × Nat :=
  (max m.start.x m.stop.x - min m.start.x m.stop.x,
   max m.start.y m.stop.y - min m.start.y m.stop.y)

/-- Modelled from the spec: `movement.rs` (Move::to_coords) is not in the
source tree; callers in `piece.rs` destructure it as
`((sx, sy), (ex, ey))`, the coordinates of both endpoints. -/
def to_coords (m : Move) : (Nat × Nat) × (Nat × Nat) :=
  ((m.start.x, m.start.y), (m.stop.x, m.stop.y))

end Move

/-- Embeds `PieceColor` from `src/piece.rs`. -/
inductive PieceColor where
  | WHITE
  | BLACK
deriving DecidableEq, Repr

/-- Embeds `impl Not for PieceColor` from `src/piece.rs`. -/
def PieceColor.not : PieceColor → PieceColor
  | PieceColor.WHITE => PieceColor.BLACK
  | PieceColor.BLACK => PieceColor.WHITE

/-- Embeds `PieceType` from `src/piece.rs`. -/
inductive PieceType where
  | Pawn
  | Rook
  | Knight
  | Bishop
  | Queen
  | King
deriving DecidableEq, Repr

/-- Embeds `struct Piece` from `src/piece.rs`. -/
structure Piece where
  piece_type : PieceType
  piece_color : PieceColor
  moved : Bool
deriving DecidableEq, Repr

/-- Embeds `Piece::new` from `src/piece.rs`: `moved` starts `false`. -/
def Piece.new (piece_type : PieceType) (piece_color : PieceColor) : Piece :=
  ⟨piece_type, piece_color, false⟩

/-- Modelled from the spec: `board.rs` is not in the source tree.
Spec 3: a fixed grid of 64 slots, each an optional piece, indexed by
`index = file + 8 * rank`; embedded as a function from the storage index. -/
def Board : Type :=
  Nat → Option Piece

/-- Modelled from the spec: `Board::new_clear` creates the board empty. -/
def Board.new_clear : Board :=
  fun _ => none

/-- Modelled from the spec: reading the optional piece at a coordinate,
through the storage index. -/
def Board.get_piece (b : Board) (s : Square) : Option Piece :=
  b s.to_index

/-- Modelled from the spec: explicit slot-set mutation (`Board::set`),
embedded functionally. -/
def Board.set (b : Board) (s : Square) (p : Option Piece) : Board :=
  fun i => if i = s.to_index then p else b i

/-- Embeds the tail of the pawn arm of `Piece::can_move_to`
(`src/piece.rs` lines 79-91), after the color match has fixed the forward
`distance` and the skip square's rank `forward`.  `Square::new(ex, forward)`
is embedded as the plain constructor: on every input reachable from
in-range squares its asserts hold. -/
def pawnBody (moved : Bool) (board : Board) (sx ex distance forward : Nat)
    (dest_occupied : Bool) : Bool :=
  if sx == ex && !dest_occupied then
    match distance with
    | 1 => true
    | 2 => !moved && (board.get_piece ⟨ex, forward⟩).isNone
    | _ => false
  else if dest_occupied && distance == 1 then
    if sx > ex then sx - ex == 1
    else if sx < ex then ex - sx == 1
    else false
  else false

/-- Embeds `Piece::can_move_to` from `src/piece.rs` (lines 47-94):
`(geometrically_possible, requires_clear_path)`.  The pawn arm's early
`return (false, false)` on a non-forward destination becomes the `else`
branch of the direction test. -/
def Piece.can_move_to (p : Piece) (board : Board) (m : Move) : Bool × Bool :=
  let dx := m.to_deltas.1
  let dy := m.to_deltas.2
  match p.piece_type with
  | PieceType.Knight => ((dx == 2 && dy == 1) || (dx == 1 && dy == 2), false)
  | PieceType.Queen => (dx == 0 || dy == 0 || dx == dy, true)
  | PieceType.King => (decide (dx ≤ 1) && decide (dy ≤ 1), false)
  | PieceType.Rook => (dx == 0 || dy == 0, true)
  | PieceType.Bishop => (dx == dy, true)
  | PieceType.Pawn =>
    let dest_occupied := (board.get_piece m.stop).isSome
    let sx := m.start.x
    let sy := m.start.y
    let ex := m.stop.x
    let ey := m.stop.y
    match p.piece_color with
    | PieceColor.WHITE =>
      if sy < ey then
        (pawnBody p.moved board sx ex (ey - sy) (sy + 1) dest_occupied, false)
      else (false, false)
    | PieceColor.BLACK =>
      if ey < sy then
        (pawnBody p.moved board sx ex (sy - ey) (sy - 1) dest_occupied, false)
      else (false, false)

/-- Embeds `Piece::color`. -/
def Piece.color (p : Piece) : PieceColor :=
  p.piece_color

/-- Modelled from the spec (4.4 step 3): the open interval of squares
strictly between origin and destination along the unit step
`(sign(Δfile), sign(Δrank))`; well-defined for the straight or diagonal
shapes that request path clearance. -/
def Move.betweenSquares (m : Move) : List Square :=
  let steps := max m.to_deltas.1 m.to_deltas.2
  let sdx : Int := if m.start.x < m.stop.x then 1 else if m.stop.x < m.start.x then -1 else 0
  let sdy : Int := if m.start.y < m.stop.y then 1 else if m.stop.y < m.start.y then -1 else 0
  (List.range (steps - 1)).map fun i =>
    ⟨((m.start.x : Int) + (i + 1) * sdx).toNat, ((m.start.y : Int) + (i + 1) * sdy).toNat⟩

/-- Modelled from the spec (4.4 step 3): the walk returns clear exactly when
every square strictly between origin and destination is unoccupied. -/
def Board.pathClear (b : Board) (m : Move) : Bool :=
  m.betweenSquares.all fun s => (b.get_piece s).isNone

/-- Modelled from the spec (4.4): `Board::is_move_possible`, the top-level
legality decision.  Steps: (1) empty origin is `false`; (2) the piece's
geometry predicate must accept; (3) if clearance is required the path must
be clear; (4) an empty destination is legal; (5) a same-side destination is
self-capture (`false`), an enemy destination is a capture (`true`). -/
def Board.is_move_possible (b : Board) (m : Move) : Bool :=
  match b.get_piece m.start with
  | none => false
  | some piece =>
    let r := piece.can_move_to b m
    if !r.1 then false
    else if r.2 && !(b.pathClear m) then false
    else
      match b.get_piece m.stop with
      | none => true
      | some target => decide (target.piece_color ≠ piece.piece_color)

/-- Embeds `struct Rook` from `src/pieces/rook.rs`: the polymorphic-object
representation of a rook. -/
structure Rook where
  color : PieceColor
deriving DecidableEq, Repr

/-- Embeds `Rook::new` from `src/pieces/rook.rs`. -/
def Rook.new (color : PieceColor) : Rook :=
  ⟨color⟩

/-- Embeds the `Piece` trait impl `Rook::can_move_to` from
`src/pieces/rook.rs` (lines 17-21): ignores the board and returns
`(sx == ex || sy == ey, true)`. -/
def Rook.can_move_to (_r : Rook) (_b : Board) (m : Move) : Bool × Bool :=
  (m.start.x == m.stop.x || m.start.y == m.stop.y, true)

/-- Embeds `Rook::get_character` from `src/pieces/rook.rs`. -/
def Rook.get_character (r : Rook) : Char :=
  match r.color with
  | PieceColor.BLACK => 'r'
  | PieceColor.WHITE => 'R'

/-! ## Helper lemmas -/

/-- Characterization of the legality composition when the origin is
occupied: geometry accepted, path clear when required, and the destination
not held by the mover's own side. -/
theorem is_move_possible_eq_of_get (b : Board) (m : Move) (p : Piece)
    (hp : b.get_piece m.start = some p) :
    b.is_move_possible m =
      ((p.can_move_to b m).1 &&
       (!(p.can_move_to b m).2 || b.pathClear m) &&
       (match b.get_piece m.stop with
        | none => true
        | some target => decide (target.piece_color ≠ p.piece_color))) := by
  unfold Board.is_move_possible
  rw [hp]
  cases h1 : (p.can_move_to b m).1 <;>
    cases h2 : (p.can_move_to b m).2 <;>
      cases h3 : b.pathClear m <;>
        cases hs : b.get_piece m.stop <;>
          simp [h1, h2, h3, hs]

/-- Two booleans agreeing as propositions are equal. -/
theorem bool_eq_of_iff {a b : Bool} (h : a = true ↔ b = true) : a = b := by
  cases a <;> cases b <;> simp_all

/-- A clear path is exactly the emptiness of every strictly-between
square. -/
theorem pathClear_iff (b : Board) (m : Move) :
    b.pathClear m = true ↔ ∀ s ∈ m.betweenSquares, b.get_piece s = none := by
  simp [Board.pathClear, List.all_eq_true, Option.isNone_iff_eq_none]

/-! ## Claim theorems -/

/-- C6: for every board and every move whose origin square is empty,
`is_move_possible` returns `false` (a normal value of the total Boolean
predicate), regardless of the destination. -/
theorem c6_empty_origin_gives_false (b : Board) (m : Move)
    (h : b.get_piece m.start = none) : b.is_move_possible m = false := by
  unfold Board.is_move_possible
  rw [h]

/-- Witness for C6: the clear board at a concrete move. -/
theorem c6_empty_origin_gives_false_witness :
    Board.new_clear.is_move_possible (Move.new ⟨0, 0⟩ ⟨1, 1⟩) = false :=
  c6_empty_origin_gives_false Board.new_clear (Move.new ⟨0, 0⟩ ⟨1, 1⟩) rfl

/-- C10: the tagged-variant Rook arm of `Piece::can_move_to` and the
polymorphic `Rook::can_move_to` return equal
`(geometrically_possible, requires_clear_path)` pairs on every board and
move. -/
theorem c10_rook_arms_agree (b : Board) (m : Move) (p : Piece) (r : Rook)
    (hk : p.piece_type = PieceType.Rook) :
    p.can_move_to b m = r.can_move_to b m := by
  unfold Piece.can_move_to Rook.can_move_to
  rw [hk]
  simp only [Move.to_deltas]
  refine Prod.ext ?_ rfl
  apply bool_eq_of_iff
  simp only [Bool.or_eq_true, beq_iff_eq]
  omega

/-- Witness for C10 at a concrete board, move, piece and rook object. -/
theorem c10_rook_arms_agree_witness :
    (Piece.new PieceType.Rook PieceColor.WHITE).can_move_to Board.new_clear
        (Move.new ⟨1, 1⟩ ⟨1, 5⟩) =
      (Rook.new PieceColor.WHITE).can_move_to Board.new_clear
        (Move.new ⟨1, 1⟩ ⟨1, 5⟩) :=
  c10_rook_arms_agree Board.new_clear (Move.new ⟨1, 1⟩ ⟨1, 5⟩)
    (Piece.new PieceType.Rook PieceColor.WHITE) (Rook.new PieceColor.WHITE) rfl

/-- C8: a null move (origin = destination) is rejected for every board and
every piece kind; moreover either the origin is empty, or the origin's
piece sees its own square as the occupied destination (for the kinds whose
shape test accepts the zero delta) or fails the shape test. -/
theorem c8_null_move_rejected (b : Board) (m : Move) (h : m.start = m.stop) :
    b.is_move_possible m = false ∧
    (b.get_piece m.start = none ∨
     ∃ p, b.get_piece m.start = some p ∧
       ((p.can_move_to b m).1 = false ∨ b.get_piece m.stop = some p)) := by
  have hd : m.to_deltas = (0, 0) := by simp [Move.to_deltas, h]
  cases hget : b.get_piece m.start with
  | none =>
    refine ⟨?_, Or.inl rfl⟩
    unfold Board.is_move_possible
    rw [hget]
  | some p =>
    have hstop : b.get_piece m.stop = some p := by rw [← h]; exact hget
    refine ⟨?_, Or.inr ⟨p, rfl, Or.inr hstop⟩⟩
    rw [is_move_possible_eq_of_get b m p hget, hstop]
    cases hpt : p.piece_type <;> cases hc : p.piece_color <;>
      simp [Piece.can_move_to, hpt, hc, hd, Board.pathClear, Move.betweenSquares, ← h]

/-- Witness for C8: a white queen standing on (2,2) may not "move" to
(2,2). -/
theorem c8_null_move_rejected_witness :
    (Board.new_clear.set ⟨2, 2⟩
        (some (Piece.new PieceType.Queen PieceColor.WHITE))).is_move_possible
      (Move.new ⟨2, 2⟩ ⟨2, 2⟩) = false :=
  (c8_null_move_rejected
    (Board.new_clear.set ⟨2, 2⟩ (some (Piece.new PieceType.Queen PieceColor.WHITE)))
    (Move.new ⟨2, 2⟩ ⟨2, 2⟩) rfl).1

/-- C7: `Square::new` fails exactly when a component exceeds 7, every
successfully constructed square is in range with `to_index = x + 8 * y`
below 64, and `to_index` is a bijection between the valid squares and
`[0, 63]`. -/
theorem c7_square_new_range_and_index_bijection :
    (∀ x y : Nat, Square.new x y = none ↔ 7 < x ∨ 7 < y) ∧
    (∀ (x y : Nat) (s : Square), Square.new x y = some s →
      s.x < 8 ∧ s.y < 8 ∧ s.to_index = x + 8 * y ∧ s.to_index < 64) ∧
    (∀ s t : Square, s.x < 8 → s.y < 8 → t.x < 8 → t.y < 8 →
      s.to_index = t.to_index → s = t) ∧
    (∀ i : Nat, i < 64 → ∃ s : Square, s.x < 8 ∧ s.y < 8 ∧ s.to_index = i) := by
  refine ⟨?_, ?_, ?_, ?_⟩
  · intro x y
    unfold Square.new
    split_ifs with h1 h2 <;> simp <;> omega
  · intro x y s hs
    unfold Square.new at hs
    split_ifs at hs with h1 h2
    cases hs
    simp [Square.to_index]
    omega
  · intro s t hs1 hs2 ht1 ht2 hidx
    cases s
    cases t
    simp_all [Square.to_index]
    omega
  · intro i hi
    exact ⟨⟨i % 8, i / 8⟩, by show i % 8 < 8; omega, by show i / 8 < 8; omega,
      by show i % 8 + 8 * (i / 8) = i; omega⟩

/-- Witness for C7: both out-of-range constructions fail, an in-range one
succeeds and its index is recovered. -/
theorem c7_square_new_range_and_index_bijection_witness :
    Square.new 8 0 = none ∧ Square.new 0 8 = none :=
  ⟨(c7_square_new_range_and_index_bijection.1 8 0).mpr (Or.inl (by decide)),
   (c7_square_new_range_and_index_bijection.1 0 8).mpr (Or.inr (by decide))⟩

/-- C1: when a rook, bishop or queen occupies the origin, a legal move must
have the kind's straight/diagonal shape and every square strictly between
origin and destination empty (so any occupied intermediate square, of
either side, forces a `false` answer). -/
theorem c1_slider_needs_shape_and_clear_path (b : Board) (m : Move) (p : Piece)
    (hp : b.get_piece m.start = some p)
    (hk : p.piece_type = PieceType.Rook ∨ p.piece_type = PieceType.Bishop ∨
          p.piece_type = PieceType.Queen)
    (h : b.is_move_possible m = true) :
    ((p.piece_type = PieceType.Rook → m.to_deltas.1 = 0 ∨ m.to_deltas.2 = 0) ∧
     (p.piece_type = PieceType.Bishop → m.to_deltas.1 = m.to_deltas.2) ∧
     (p.piece_type = PieceType.Queen →
       m.to_deltas.1 = 0 ∨ m.to_deltas.2 = 0 ∨ m.to_deltas.1 = m.to_deltas.2)) ∧
    b.pathClear m = true ∧
    ∀ s ∈ m.betweenSquares, b.get_piece s = none := by
  rw [is_move_possible_eq_of_get b m p hp] at h
  simp only [Bool.and_eq_true, Bool.or_eq_true, Bool.not_eq_true'] at h
  obtain ⟨⟨hgeo, hpath⟩, _⟩ := h
  have hreq : (p.can_move_to b m).2 = true := by
    rcases hk with hk | hk | hk <;> simp [Piece.can_move_to, hk]
  have hclear : b.pathClear m = true := by
    rcases hpath with h | h
    · rw [hreq] at h
      cases h
    · exact h
  refine ⟨⟨?_, ?_, ?_⟩, hclear, (pathClear_iff b m).mp hclear⟩
  · intro hk'
    simpa [Piece.can_move_to, hk'] using hgeo
  · intro hk'
    simpa [Piece.can_move_to, hk'] using hgeo
  · intro hk'
    simpa [Piece.can_move_to, hk', or_assoc] using hgeo

/-- Witness for C1: a white rook's legal slide from (1,1) to (1,5) on an
otherwise empty board has a clear path. -/
theorem c1_slider_needs_shape_and_clear_path_witness :
    (Board.new_clear.set ⟨1, 1⟩
        (some (Piece.new PieceType.Rook PieceColor.WHITE))).pathClear
      (Move.new ⟨1, 1⟩ ⟨1, 5⟩) = true :=
  (c1_slider_needs_shape_and_clear_path
    (Board.new_clear.set ⟨1, 1⟩ (some (Piece.new PieceType.Rook PieceColor.WHITE)))
    (Move.new ⟨1, 1⟩ ⟨1, 5⟩) (Piece.new PieceType.Rook PieceColor.WHITE)
    (by decide) (Or.inl rfl) (by decide)).2.1

/-- C2: with the geometry accepted and the path clear whenever it is
required, the move is legal exactly when the destination is empty or holds
an enemy piece; and, with no side conditions at all, a same-side occupant
at the destination always makes the answer `false` (no self-capture for
any piece kind). -/
theorem c2_capture_ownership (b : Board) (m : Move) (p : Piece)
    (hp : b.get_piece m.start = some p) :
    ((p.can_move_to b m).1 = true →
     ((p.can_move_to b m).2 = true → b.pathClear m = true) →
     (b.is_move_possible m = true ↔
       b.get_piece m.stop = none ∨
       ∃ t, b.get_piece m.stop = some t ∧ t.piece_color ≠ p.piece_color)) ∧
    ∀ t, b.get_piece m.stop = some t → t.piece_color = p.piece_color →
      b.is_move_possible m = false := by
  constructor
  · intro hgeo hpath
    have hmid : (!(p.can_move_to b m).2 || b.pathClear m) = true := by
      cases hreq : (p.can_move_to b m).2
      · simp
      · simp [hpath hreq]
    rw [is_move_possible_eq_of_get b m p hp, hgeo, hmid]
    cases hs : b.get_piece m.stop with
    | none => simp
    | some t => simp
  · intro t ht hcol
    rw [is_move_possible_eq_of_get b m p hp, ht]
    simp [hcol]

/-- Witness for C2: a white rook may not land on an allied rook one square
up its file. -/
theorem c2_capture_ownership_witness :
    ((Board.new_clear.set ⟨1, 1⟩
        (some (Piece.new PieceType.Rook PieceColor.WHITE))).set ⟨1, 5⟩
        (some (Piece.new PieceType.Rook PieceColor.WHITE))).is_move_possible
      (Move.new ⟨1, 1⟩ ⟨1, 5⟩) = false :=
  (c2_capture_ownership
    ((Board.new_clear.set ⟨1, 1⟩
        (some (Piece.new PieceType.Rook PieceColor.WHITE))).set ⟨1, 5⟩
        (some (Piece.new PieceType.Rook PieceColor.WHITE)))
    (Move.new ⟨1, 1⟩ ⟨1, 5⟩) (Piece.new PieceType.Rook PieceColor.WHITE)
    (by decide)).2 (Piece.new PieceType.Rook PieceColor.WHITE) (by decide) rfl

/-- C5: a knight's move is legal exactly when the magnitude deltas are
(2,1) or (1,2) and the destination holds no same-side piece; and the
answer depends on no square other than origin and destination (two boards
agreeing there agree on the answer). -/
theorem c5_knight_l_shape_and_jump (b b2 : Board) (m : Move) (p : Piece)
    (hp : b.get_piece m.start = some p)
    (hk : p.piece_type = PieceType.Knight)
    (h1 : b2.get_piece m.start = b.get_piece m.start)
    (h2 : b2.get_piece m.stop = b.get_piece m.stop) :
    (b.is_move_possible m = true ↔
      ((m.to_deltas.1 = 2 ∧ m.to_deltas.2 = 1) ∨
       (m.to_deltas.1 = 1 ∧ m.to_deltas.2 = 2)) ∧
      ∀ t, b.get_piece m.stop = some t → t.piece_color ≠ p.piece_color) ∧
    b2.is_move_possible m = b.is_move_possible m := by
  have hcan : ∀ bb : Board, p.can_move_to bb m =
      ((m.to_deltas.1 == 2 && m.to_deltas.2 == 1) ||
       (m.to_deltas.1 == 1 && m.to_deltas.2 == 2), false) := by
    intro bb
    simp [Piece.can_move_to, hk]
  constructor
  · rw [is_move_possible_eq_of_get b m p hp, hcan b]
    cases hs : b.get_piece m.stop with
    | none => simp
    | some t => simp
  · have hp2 : b2.get_piece m.start = some p := by rw [h1]; exact hp
    rw [is_move_possible_eq_of_get b m p hp, is_move_possible_eq_of_get b2 m p hp2,
        hcan b, hcan b2, h2]
    simp

/-- Witness for C5: filling an adjacent square does not change the answer
for a knight jump from (3,3) to (4,5). -/
theorem c5_knight_l_shape_and_jump_witness :
    ((Board.new_clear.set ⟨3, 3⟩
        (some (Piece.new PieceType.Knight PieceColor.WHITE))).set ⟨3, 4⟩
        (some (Piece.new PieceType.Pawn PieceColor.BLACK))).is_move_possible
      (Move.new ⟨3, 3⟩ ⟨4, 5⟩) =
    (Board.new_clear.set ⟨3, 3⟩
        (some (Piece.new PieceType.Knight PieceColor.WHITE))).is_move_possible
      (Move.new ⟨3, 3⟩ ⟨4, 5⟩) :=
  (c5_knight_l_shape_and_jump
    (Board.new_clear.set ⟨3, 3⟩ (some (Piece.new PieceType.Knight PieceColor.WHITE)))
    ((Board.new_clear.set ⟨3, 3⟩
        (some (Piece.new PieceType.Knight PieceColor.WHITE))).set ⟨3, 4⟩
        (some (Piece.new PieceType.Pawn PieceColor.BLACK)))
    (Move.new ⟨3, 3⟩ ⟨4, 5⟩) (Piece.new PieceType.Knight PieceColor.WHITE)
    (by decide) rfl (by decide) (by decide)).2

/-- The pawn tail accepts exactly: a straight step onto an empty square of
distance 1, or of distance 2 by an unmoved pawn with the skip square empty;
or a capture-shaped step of forward distance 1 onto an occupied square one
file away. -/
theorem pawnBody_eq_true_iff (mv : Bool) (board : Board) (sx ex distance forward : Nat)
    (docc : Bool) :
    pawnBody mv board sx ex distance forward docc = true ↔
      ((sx = ex ∧ docc = false ∧
        (distance = 1 ∨
         (distance = 2 ∧ mv = false ∧ board.get_piece ⟨ex, forward⟩ = none))) ∨
       (docc = true ∧ distance = 1 ∧ (sx = ex + 1 ∨ ex = sx + 1))) := by
  unfold pawnBody
  cases docc <;> by_cases h1 : sx = ex
  · subst h1
    simp only [beq_self_eq_true, Bool.not_false, Bool.and_true, if_pos]
    rcases distance with _ | _ | _ | n <;>
      simp [Option.isNone_iff_eq_none, Bool.not_eq_true']
  · have h1b : (sx == ex) = false := by simpa using h1
    simp [h1b, h1]
  · subst h1
    have : ¬ sx > sx := lt_irrefl sx
    by_cases hd : distance = 1 <;> simp [hd, this]
  · have h1b : (sx == ex) = false := by simpa using h1
    by_cases hd : distance = 1
    · subst hd
      simp [h1b, h1]
      rcases Nat.lt_trichotomy sx ex with h | h | h
      · simp [h, Nat.lt_asymm h]
        omega
      · exact absurd h h1
      · simp [h, Nat.lt_asymm h]
        omega
    · simp [h1b, h1, hd]

/-- C3: a pawn's non-capturing move (file unchanged) is legal exactly when
it is strictly forward for its side onto an empty destination, at distance
1, or at distance 2 with the has-moved flag still `false` and the square
immediately in front of the origin also empty; backward, sideways and
longer moves are all rejected. -/
theorem c3_pawn_forward_moves (b : Board) (m : Move) (p : Piece)
    (hp : b.get_piece m.start = some p)
    (hk : p.piece_type = PieceType.Pawn)
    (hfile : m.start.x = m.stop.x) :
    (p.piece_color = PieceColor.WHITE →
      (b.is_move_possible m = true ↔
        b.get_piece m.stop = none ∧
        (m.stop.y = m.start.y + 1 ∨
         (m.stop.y = m.start.y + 2 ∧ p.moved = false ∧
          b.get_piece ⟨m.stop.x, m.start.y + 1⟩ = none)))) ∧
    (p.piece_color = PieceColor.BLACK →
      (b.is_move_possible m = true ↔
        b.get_piece m.stop = none ∧
        (m.stop.y + 1 = m.start.y ∨
         (m.stop.y + 2 = m.start.y ∧ p.moved = false ∧
          b.get_piece ⟨m.stop.x, m.start.y - 1⟩ = none)))) := by
  constructor
  · intro hc
    rw [is_move_possible_eq_of_get b m p hp]
    by_cases hfwd : m.start.y < m.stop.y
    · have hcan : p.can_move_to b m =
          (pawnBody p.moved b m.start.x m.stop.x (m.stop.y - m.start.y) (m.start.y + 1)
            (b.get_piece m.stop).isSome, false) := by
        simp [Piece.can_move_to, hk, hc, hfwd]
      rw [hcan]
      have e1 : m.stop.y - m.start.y = 1 ↔ m.stop.y = m.start.y + 1 := by omega
      have e2 : m.stop.y - m.start.y = 2 ↔ m.stop.y = m.start.y + 2 := by omega
      cases hs : b.get_piece m.stop with
      | none =>
        simp only [hs, Option.isSome_none, Bool.not_false, Bool.true_or, Bool.and_true,
          pawnBody_eq_true_iff, e1, e2]
        simp [hfile]
      | some t =>
        simp only [hs, Option.isSome_some, Bool.and_eq_true, pawnBody_eq_true_iff, e1, e2]
        constructor
        · rintro ⟨⟨⟨-, hff, -⟩ | ⟨-, -, hnb⟩, -⟩, -⟩
          · cases hff
          · rcases hnb with h | h <;> omega
        · rintro ⟨hcontra, -⟩
          cases hcontra
    · have hcan : p.can_move_to b m = (false, false) := by
        simp [Piece.can_move_to, hk, hc, hfwd]
      rw [hcan]
      simp only [Bool.false_and, Bool.and_eq_true]
      constructor
      · intro h
        cases h
      · rintro ⟨-, h1 | ⟨h2, -, -⟩⟩ <;> omega
  · intro hc
    rw [is_move_possible_eq_of_get b m p hp]
    by_cases hfwd : m.stop.y < m.start.y
    · have hcan : p.can_move_to b m =
          (pawnBody p.moved b m.start.x m.stop.x (m.start.y - m.stop.y) (m.start.y - 1)
            (b.get_piece m.stop).isSome, false) := by
        simp [Piece.can_move_to, hk, hc, hfwd]
      rw [hcan]
      have e1 : m.start.y - m.stop.y = 1 ↔ m.stop.y + 1 = m.start.y := by omega
      have e2 : m.start.y - m.stop.y = 2 ↔ m.stop.y + 2 = m.start.y := by omega
      cases hs : b.get_piece m.stop with
      | none =>
        simp only [hs, Option.isSome_none, Bool.not_false, Bool.true_or, Bool.and_true,
          pawnBody_eq_true_iff, e1, e2]
        simp [hfile]
      | some t =>
        simp only [hs, Option.isSome_some, Bool.and_eq_true, pawnBody_eq_true_iff, e1, e2]
        constructor
        · rintro ⟨⟨⟨-, hff, -⟩ | ⟨-, -, hnb⟩, -⟩, -⟩
          · cases hff
          · rcases hnb with h | h <;> omega
        · rintro ⟨hcontra, -⟩
          cases hcontra
    · have hcan : p.can_move_to b m = (false, false) := by
        simp [Piece.can_move_to, hk, hc, hfwd]
      rw [hcan]
      simp only [Bool.false_and, Bool.and_eq_true]
      constructor
      · intro h
        cases h
      · rintro ⟨-, h1 | ⟨h2, -, -⟩⟩ <;> omega

/-- C4: a pawn's file-changing move is legal exactly when the file differs
by exactly 1, the rank moves exactly 1 strictly forward for the pawn's
side, and the destination holds an enemy piece; diagonal steps onto an
empty or allied square, and wider file changes, are rejected. -/
theorem c4_pawn_diagonal_captures (b : Board) (m : Move) (p : Piece)
    (hp : b.get_piece m.start = some p)
    (hk : p.piece_type = PieceType.Pawn)
    (hfile : m.start.x ≠ m.stop.x) :
    (p.piece_color = PieceColor.WHITE →
      (b.is_move_possible m = true ↔
        (m.start.x = m.stop.x + 1 ∨ m.stop.x = m.start.x + 1) ∧
        m.stop.y = m.start.y + 1 ∧
        ∃ t, b.get_piece m.stop = some t ∧ t.piece_color ≠ p.piece_color)) ∧
    (p.piece_color = PieceColor.BLACK →
      (b.is_move_possible m = true ↔
        (m.start.x = m.stop.x + 1 ∨ m.stop.x = m.start.x + 1) ∧
        m.stop.y + 1 = m.start.y ∧
        ∃ t, b.get_piece m.stop = some t ∧ t.piece_color ≠ p.piece_color)) := by
  constructor
  · intro hc
    rw [is_move_possible_eq_of_get b m p hp]
    by_cases hfwd : m.start.y < m.stop.y
    · have hcan : p.can_move_to b m =
          (pawnBody p.moved b m.start.x m.stop.x (m.stop.y - m.start.y) (m.start.y + 1)
            (b.get_piece m.stop).isSome, false) := by
        simp [Piece.can_move_to, hk, hc, hfwd]
      rw [hcan]
      have e1 : m.stop.y - m.start.y = 1 ↔ m.stop.y = m.start.y + 1 := by omega
      cases hs : b.get_piece m.stop with
      | none =>
        simp only [hs, Option.isSome_none, Bool.not_false, Bool.true_or, Bool.and_true,
          pawnBody_eq_true_iff, e1]
        constructor
        · rintro (⟨hx, -, -⟩ | ⟨hff, -, -⟩)
          · exact absurd hx hfile
          · cases hff
        · rintro ⟨-, -, t, ht, -⟩
          cases ht
      | some t =>
        simp only [hs, Option.isSome_some, Bool.and_eq_true, pawnBody_eq_true_iff, e1,
          decide_eq_true_eq, Bool.not_false, Bool.true_or, Bool.and_true]
        constructor
        · rintro ⟨(⟨-, hff, -⟩ | ⟨-, hd, hnb⟩), hne⟩
          · cases hff
          · exact ⟨hnb, hd, t, rfl, hne⟩
        · rintro ⟨hnb, hd, u, hu, hne⟩
          injection hu with hu
          subst hu
          exact ⟨Or.inr ⟨trivial, hd, hnb⟩, hne⟩
    · have hcan : p.can_move_to b m = (false, false) := by
        simp [Piece.can_move_to, hk, hc, hfwd]
      rw [hcan]
      simp only [Bool.false_and, Bool.and_eq_true]
      constructor
      · intro h
        cases h
      · rintro ⟨-, hd, -⟩
        omega
  · intro hc
    rw [is_move_possible_eq_of_get b m p hp]
    by_cases hfwd : m.stop.y < m.start.y
    · have hcan : p.can_move_to b m =
          (pawnBody p.moved b m.start.x m.stop.x (m.start.y - m.stop.y) (m.start.y - 1)
            (b.get_piece m.stop).isSome, false) := by
        simp [Piece.can_move_to, hk, hc, hfwd]
      rw [hcan]
      have e1 : m.start.y - m.stop.y = 1 ↔ m.stop.y + 1 = m.start.y := by omega
      cases hs : b.get_piece m.stop with
      | none =>
        simp only [hs, Option.isSome_none, Bool.not_false, Bool.true_or, Bool.and_true,
          pawnBody_eq_true_iff, e1]
        constructor
        · rintro (⟨hx, -, -⟩ | ⟨hff, -, -⟩)
          · exact absurd hx hfile
          · cases hff
        · rintro ⟨-, -, t, ht, -⟩
          cases ht
      | some t =>
        simp only [hs, Option.isSome_some, Bool.and_eq_true, pawnBody_eq_true_iff, e1,
          decide_eq_true_eq, Bool.not_false, Bool.true_or, Bool.and_true]
        constructor
        · rintro ⟨(⟨-, hff, -⟩ | ⟨-, hd, hnb⟩), hne⟩
          · cases hff
          · exact ⟨hnb, hd, t, rfl, hne⟩
        · rintro ⟨hnb, hd, u, hu, hne⟩
          injection hu with hu
          subst hu
          exact ⟨Or.inr ⟨trivial, hd, hnb⟩, hne⟩
    · have hcan : p.can_move_to b m = (false, false) := by
        simp [Piece.can_move_to, hk, hc, hfwd]
      rw [hcan]
      simp only [Bool.false_and, Bool.and_eq_true]
      constructor
      · intro h
        cases h
      · rintro ⟨-, hd, -⟩
        omega

/-- Witness for C3: the spec scenario, white pawn at b4, double step to b6
on an empty board is legal. -/
theorem c3_pawn_forward_moves_witness :
    (Board.new_clear.set ⟨1, 3⟩
        (some (Piece.new PieceType.Pawn PieceColor.WHITE))).is_move_possible
      (Move.new ⟨1, 3⟩ ⟨1, 5⟩) = true :=
  ((c3_pawn_forward_moves
      (Board.new_clear.set ⟨1, 3⟩ (some (Piece.new PieceType.Pawn PieceColor.WHITE)))
      (Move.new ⟨1, 3⟩ ⟨1, 5⟩) (Piece.new PieceType.Pawn PieceColor.WHITE)
      (by decide) rfl rfl).1 rfl).mpr ⟨rfl, Or.inr ⟨rfl, rfl, rfl⟩⟩

/-- Witness for C4: a white pawn at (3,3) takes a black pawn at (4,4). -/
theorem c4_pawn_diagonal_captures_witness :
    ((Board.new_clear.set ⟨3, 3⟩
        (some (Piece.new PieceType.Pawn PieceColor.WHITE))).set ⟨4, 4⟩
        (some (Piece.new PieceType.Pawn PieceColor.BLACK))).is_move_possible
      (Move.new ⟨3, 3⟩ ⟨4, 4⟩) = true :=
  ((c4_pawn_diagonal_captures
      ((Board.new_clear.set ⟨3, 3⟩
          (some (Piece.new PieceType.Pawn PieceColor.WHITE))).set ⟨4, 4⟩
          (some (Piece.new PieceType.Pawn PieceColor.BLACK)))
      (Move.new ⟨3, 3⟩ ⟨4, 4⟩) (Piece.new PieceType.Pawn PieceColor.WHITE)
      (by decide) rfl (by decide)).1 rfl).mpr
    ⟨Or.inr rfl, rfl, Piece.new PieceType.Pawn PieceColor.BLACK, by decide, by decide⟩

set_option maxRecDepth 10000 in
/-- Every valid square's notation is two characters long (as a list). -/
theorem uci_len_aux : ∀ q : Fin 8 × Fin 8,
    (Square.mk q.1 q.2).to_uci.toList.length = 2 := by decide

set_option maxRecDepth 10000 in
/-- Every valid square's notation has string length 2. -/
theorem uci_len_aux2 : ∀ q : Fin 8 × Fin 8,
    (Square.mk q.1 q.2).to_uci.length = 2 := by decide

set_option maxRecDepth 10000 in
/-- Square-to-algebraic notation is injective over the 64 valid squares. -/
theorem uci_inj_aux : ∀ q r : Fin 8 × Fin 8,
    (Square.mk q.1 q.2).to_uci = (Square.mk r.1 r.2).to_uci → q = r := by decide

/-- String append concatenates the character lists. -/
theorem toList_append_aux : ∀ s t : String, (s ++ t).toList = s.toList ++ t.toList := by
  intro ⟨s⟩ ⟨t⟩
  rfl

/-- C9: a move's notation is the concatenation of its endpoints' notations,
is exactly 4 characters for valid endpoints, splits by halves back into the
two squares' notations, and square-to-algebraic is injective over the 64
valid coordinates. -/
theorem c9_move_to_uci_roundtrip (a b : Square) (ha1 : a.x < 8) (ha2 : a.y < 8)
    (hb1 : b.x < 8) (hb2 : b.y < 8) :
    (Move.new a b).to_uci = a.to_uci ++ b.to_uci ∧
    (Move.new a b).to_uci.length = 4 ∧
    (Move.new a b).to_uci.toList.take 2 = a.to_uci.toList ∧
    (Move.new a b).to_uci.toList.drop 2 = b.to_uci.toList ∧
    (∀ c d : Square, c.x < 8 → c.y < 8 → d.x < 8 → d.y < 8 →
      c.to_uci = d.to_uci → c = d) := by
  have hla : a.to_uci.toList.length = 2 := by
    rcases a with ⟨x, y⟩
    exact uci_len_aux (⟨x, ha1⟩, ⟨y, ha2⟩)
  have hla2 : a.to_uci.length = 2 := by
    rcases a with ⟨x, y⟩
    exact uci_len_aux2 (⟨x, ha1⟩, ⟨y, ha2⟩)
  have hlb2 : b.to_uci.length = 2 := by
    rcases b with ⟨x, y⟩
    exact uci_len_aux2 (⟨x, hb1⟩, ⟨y, hb2⟩)
  refine ⟨rfl, ?_, ?_, ?_, ?_⟩
  · show (a.to_uci ++ b.to_uci).length = 4
    rw [String.length_append, hla2, hlb2]
  · show (a.to_uci ++ b.to_uci).toList.take 2 = a.to_uci.toList
    rw [toList_append_aux, ← hla, List.take_left]
  · show (a.to_uci ++ b.to_uci).toList.drop 2 = b.to_uci.toList
    rw [toList_append_aux, ← hla, List.drop_left]
  · intro c d hc1 hc2 hd1 hd2 hcd
    rcases c with ⟨cx, cy⟩
    rcases d with ⟨dx, dy⟩
    have h := uci_inj_aux (⟨cx, hc1⟩, ⟨cy, hc2⟩) (⟨dx, hd1⟩, ⟨dy, hd2⟩) hcd
    simp only [Prod.mk.injEq, Fin.mk.injEq] at h
    rw [h.1, h.2]

/-- Witness for C9: the move b3-d5 renders as 4 characters. -/
theorem c9_move_to_uci_roundtrip_witness :
    (Move.new ⟨1, 2⟩ ⟨3, 4⟩).to_uci.length = 4 :=
  (c9_move_to_uci_roundtrip ⟨1, 2⟩ ⟨3, 4⟩ (by decide) (by decide) (by decide)
    (by decide)).2.1
